import Mathlib

/-!
Verification of the configuration-option resolution core of cheribuild
(`pycheribuild/config/loader.py`), shallowly embedded in Lean 4.

Python values that flow through the loader (command-line strings and booleans,
JSON documents, coerced results such as `pathlib.Path` objects and enum
members) are modelled by the inductive `PVal`.  Python dictionaries are
modelled as association lists in insertion order; `assocGet` is `dict.get`
(first matching key).  Exceptions are modelled with `Except PyErr`.
-/

set_option autoImplicit false

namespace CheriLoader

/-- A Python runtime value as it appears in the config loader:
JSON scalars and objects, plus the coerced value kinds (`pathlib.Path`
rendered as its string, an enum member by its name, Python lists). -/
inductive PVal where
  | str (s : String)
  | bool (b : Bool)
  | int (n : Int)
  | obj (entries : List (String × PVal))
  | list (xs : List PVal)
  | path (s : String)
  | enum (member : String)

/-- The Python exceptions and exits the loader can produce.
`fatalExit` models `fatalError` from `pycheribuild/utils.py`.
Modelled from the spec: `fatalError` is imported from `..utils`, which is not
part of the sources here; per the spec ("process exits non-zero") it prints
the message and terminates the process with a non-zero status instead of
propagating an exception. -/
inductive PyErr where
  | attributeError
  | assertionError
  | typeError (msg : String)
  | valueError (msg : String)
  | argumentTypeError (msg : String)
  | syntaxError (msg : String)
  | fileNotFound (path : List String)
  | recursionError
  | fatalExit (msg : String)
  deriving DecidableEq

/-- `d.get(k)` on a Python dict kept as an insertion-ordered association
list: the first matching key wins (keys are unique in a real dict). -/
def assocGet {α : Type} : List (String × α) → String → Option α
  | [], _ => none
  | (k0, v) :: rest, k => if k0 = k then some v else assocGet rest k

/-- `k in d` on a Python dict. -/
def containsKey {α : Type} (d : List (String × α)) (k : String) : Bool :=
  (assocGet d k).isSome

/-! ### Character-level string utilities

The loader manipulates option names and paths with `str.split`, `rfind`,
`os.path.expandvars` and friends.  These are modelled on `List Char`
(structurally recursive, so they reduce definitionally). -/

/-- Python `s.split(sep)` on characters: the empty string gives `[[]]`,
separators at the ends yield empty parts, exactly as in Python. -/
def splitChars (sep : Char) : List Char → List (List Char)
  | [] => [[]]
  | c :: rest =>
    if c = sep then [] :: splitChars sep rest
    else
      match splitChars sep rest with
      | p :: ps => (c :: p) :: ps
      | [] => [[c]]

/-- Join parts with `'/'` (inverse of `splitChars '/'` on slash-free parts). -/
def joinParts : List (List Char) → List Char
  | [] => []
  | [p] => p
  | p :: rest => p ++ '/' :: joinParts rest

/-- Python `s.split("/")` returning strings. -/
def pySplitSlash (s : String) : List String :=
  (splitChars '/' s.data).map String.mk

/-- The argparse `dest` derived from a long option name: the leading dashes
are stripped (our names never start with a dash) and `-` becomes `_`. -/
def destOf (name : String) : String :=
  String.mk (name.data.map (fun c => if c = '-' then '_' else c))

/-- The negated flag name built in `CommandLineConfigOption.__init__`
(lines 328-329): `"no-"` is inserted after the last `/` of the option name
(`name[:slashIndex + 1] + "no-" + name[slashIndex + 1:]`). -/
def negatedName (name : String) : String :=
  let parts := splitChars '/' name.data
  String.mk (joinParts (parts.dropLast ++ [['n', 'o', '-'] ++ parts.getLastD []]))

/-- Python `int(s)` argument parsing: optional surrounding spaces, an
optional sign, then at least one decimal digit. -/
def parseIntChars (cs : List Char) : Option Int :=
  let cs := (cs.dropWhile (· = ' ')).reverse.dropWhile (· = ' ') |>.reverse
  let (sign, digits) : Int × List Char :=
    match cs with
    | '-' :: rest => (-1, rest)
    | '+' :: rest => (1, rest)
    | rest => (1, rest)
  if digits.isEmpty then none
  else if digits.all Char.isDigit then
    some (sign * (digits.foldl (fun acc c => acc * 10 + (c.toNat - '0'.toNat)) 0 : Nat))
  else none

/-! ### `os.path.expandvars` and `os.path.expanduser`

`_convertType` coerces `Path` options via
`os.path.expanduser(os.path.expandvars(str(result)))` followed by
`Path(...).absolute()`.  `expandvars` (posixpath) performs a single
left-to-right pass: a substituted value is *not* rescanned (the scan resumes
after the inserted text), and an undefined variable is left in place. -/

/-- Characters matched by the `\w` in posixpath's `$name` pattern. -/
def isVarChar (c : Char) : Bool := c.isAlphanum || c = '_'

/-- One pass of `os.path.expandvars` over the characters, fuelled so that it
is structurally recursive (`length + 1` fuel always suffices: every step
consumes at least one input character). -/
def expandVarsGo (env : List (String × String)) : Nat → List Char → List Char
  | 0, cs => cs
  | _ + 1, [] => []
  | f + 1, c :: rest =>
    if c = '$' then
      match rest with
      | '{' :: r2 =>
        let body := r2.takeWhile (fun d => d ≠ '}')
        match r2.drop body.length with
        | '}' :: tail =>
          match assocGet env (String.mk body) with
          | some v => v.data ++ expandVarsGo env f tail
          | none => '$' :: '{' :: (body ++ '}' :: expandVarsGo env f tail)
        | _ => c :: expandVarsGo env f rest
      | _ =>
        let name := rest.takeWhile isVarChar
        if name.isEmpty then c :: expandVarsGo env f rest
        else
          match assocGet env (String.mk name) with
          | some v => v.data ++ expandVarsGo env f (rest.drop name.length)
          | none => '$' :: (name ++ expandVarsGo env f (rest.drop name.length))
    else c :: expandVarsGo env f rest

/-- `os.path.expandvars(s)` with environment `env`. -/
def expandVars (env : List (String × String)) (s : String) : String :=
  String.mk (expandVarsGo env (s.data.length + 1) s.data)

/-- The process-wide context the loader reads implicitly: the parsed-args
namespace (`dest ↦ value`, `none` when the flag was absent), the loaded JSON
document `_JSON`, and the pieces of the OS environment that
`ConfigOptionBase._convertType` consults for `Path` coercion. -/
structure LoaderState where
  parsedArgs : String → Option PVal
  json : List (String × PVal)
  /-- `os.getcwd()` as its (normalized, absolute) path components. -/
  cwd : List String
  /-- `os.environ`. -/
  env : List (String × String)
  /-- the `pwd` database: user name to home directory, for `~user`. -/
  users : List (String × String)
  /-- `pwd.getpwuid(os.getuid()).pw_dir`, the fallback when `HOME` is unset. -/
  ownHomeDir : Option String

/-- `os.path.expanduser(s)`: only a leading `~` (optionally followed by a
user name up to the first `/`) is expanded; an unknown user leaves the
string unchanged; the home directory is stripped of trailing slashes and an
empty result becomes `"/"`. -/
def expandUser (st : LoaderState) (s : String) : String :=
  match s.data with
  | '~' :: rest =>
    let name := rest.takeWhile (fun c => c ≠ '/')
    let tail := rest.drop name.length
    let userhome : Option String :=
      if name.isEmpty then
        match assocGet st.env "HOME" with
        | some h => some h
        | none => st.ownHomeDir
      else assocGet st.users (String.mk name)
    match userhome with
    | none => s
    | some h =>
      let stripped := (h.data.reverse.dropWhile (· = '/')).reverse
      if (stripped ++ tail).isEmpty then "/" else String.mk (stripped ++ tail)
  | _ => s

/-! ### `pathlib.Path` construction and `absolute()`

`PurePosixPath` normalizes at construction: repeated and trailing slashes
collapse and `.` components disappear (`..` is kept).  `absolute()` prefixes
the working directory when the path is relative.  A `Path` is modelled by
its rendered string. -/

/-- The path components `pathlib` keeps: empty and `.` parts are dropped. -/
def cleanParts (cs : List Char) : List (List Char) :=
  (splitChars '/' cs).filter (fun p => !p.isEmpty && p ≠ ['.'])

/-- `str(Path(s))` for the string with characters `cs`. -/
def normChars (cs : List Char) : List Char :=
  match cs with
  | '/' :: _ => '/' :: joinParts (cleanParts cs)
  | _ =>
    match cleanParts cs with
    | [] => ['.']
    | ps => joinParts ps

/-- `os.path.expanduser(os.path.expandvars(str(result)))`, the expansion
step of the `Path` coercion (loader.py line 286). -/
def pathExpand (st : LoaderState) (s : String) : String :=
  expandUser st (expandVars st.env s)

/-- `Path(os.path.expanduser(os.path.expandvars(s))).absolute()` rendered as
a string: the full `Path` coercion done by `ConfigOptionBase._convertType`
(loader.py lines 285-288).  An absolute expanded string is normalized by
the `Path` constructor; a relative one additionally gets the working
directory prefixed by `absolute()`. -/
def coercePath (st : LoaderState) (s : String) : String :=
  match (pathExpand st s).data with
  | '/' :: _ => String.mk (normChars (pathExpand st s).data)
  | _ =>
    String.mk ('/' :: joinParts (st.cwd.map String.data
      ++ cleanParts (pathExpand st s).data))

/-! ### Value coercion (`ConfigOptionBase._convertType`, `_EnumArgparseType`) -/

/-- Python truthiness, used for `bool(result)` and the `if include_value:`
check. `Path` objects and enum members are always truthy. -/
def pyTruthy : PVal → Bool
  | .str s => s ≠ ""
  | .bool b => b
  | .int n => n ≠ 0
  | .obj es => !es.isEmpty
  | .list xs => !xs.isEmpty
  | .path _ => true
  | .enum _ => true

/-- Python `str(v)`.  Only the cases the loader exercises matter
(strings, paths, booleans, integers); the container reprs are abbreviated,
since no option value that reaches `str()` in the modelled code paths is a
container. -/
def pyStr : PVal → String
  | .str s => s
  | .bool b => if b then "True" else "False"
  | .int n => toString n
  | .path s => s
  | .enum m => m
  | .list _ => "[...]"
  | .obj _ => "\x7b...\x7d"

/-- `shlex.split` as used for the string-to-list coercion.  Only whitespace
splitting is modelled; shell quoting is not exercised by any claim. -/
def shlexSplit (s : String) : List String :=
  ((splitChars ' ' s.data).filter (fun p => !p.isEmpty)).map String.mk

/-- Python `int(v)`.  Non-numeric strings raise `ValueError` with the
CPython message; non-string non-number arguments raise `TypeError`
(which `loadOption`'s `except ValueError` does not catch). -/
def pyIntOf : PVal → Except PyErr PVal
  | .int n => .ok (.int n)
  | .bool b => .ok (.int (if b then 1 else 0))
  | .str s =>
    match parseIntChars s.data with
    | some n => .ok (.int n)
    | none => .error (.valueError ("invalid literal for int() with base 10: '" ++ s ++ "'"))
  | _ => .error (.typeError "int() argument must be a string or a number")

/-- Python `list(v)`: lists are shallow-copied, strings explode into
characters, dicts yield their keys, anything else raises `TypeError`. -/
def pyListOf : PVal → Except PyErr PVal
  | .list xs => .ok (.list xs)
  | .str s => .ok (.list (s.data.map (fun c => PVal.str (String.mk [c]))))
  | .obj es => .ok (.list (es.map (fun kv => PVal.str kv.1)))
  | _ => .error (.typeError "object is not iterable")

/-- `astring.upper().replace("-", "_")` from `_EnumArgparseType.__call__`. -/
def enumNormalize (s : String) : String :=
  String.mk (s.data.map (fun c => if c = '-' then '_' else c.toUpper))

/-- Lower-case a member name for the enum error message. -/
def lowerStr (s : String) : String := String.mk (s.data.map Char.toLower)

/-- Python `", ".join` over lower-cased member names. -/
def joinMembers : List String → String
  | [] => ""
  | [m] => lowerStr m
  | m :: rest => lowerStr m ++ ", " ++ joinMembers rest

/-- `_EnumArgparseType.__call__` on a non-list argument: an enum instance
passes through unchanged; a string is matched case-insensitively with `-`
mapped to `_`, raising `argparse.ArgumentTypeError` (note: *not* a
`ValueError`) listing the choices on a miss; `.upper()` on anything else
raises `AttributeError`. The enum class is modelled by its member-name
list. -/
def enumScalar (members : List String) : PVal → Except PyErr PVal
  | .enum m => .ok (.enum m)
  | .str s =>
    let n := enumNormalize s
    if members.contains n then .ok (.enum n)
    else .error (.argumentTypeError ("use one of \x7b" ++ joinMembers members ++ "\x7d"))
  | _ => .error .attributeError

/-- Map an `Except`-valued function over a list, stopping at the first
error (`[f(a) for a in xs]`). -/
def exceptMapList (g : PVal → Except PyErr PVal) : List PVal → Except PyErr (List PVal)
  | [] => .ok []
  | x :: rest =>
    match g x with
    | .error e => .error e
    | .ok y =>
      match exceptMapList g rest with
      | .error e => .error e
      | .ok ys => .ok (y :: ys)

/-- `_EnumArgparseType.__call__`: a list argument maps the conversion over
its elements (one level of nesting is modelled; argparse's `append` action
only ever produces flat lists of scalars). -/
def enumCall (members : List String) : PVal → Except PyErr PVal
  | .list xs =>
    match exceptMapList (enumScalar members) xs with
    | .error e => .error e
    | .ok ys => .ok (.list ys)
  | v => enumScalar members v

/-- The semantic value types an option can declare (`valueType`).  A
`Sequence` subclass other than `str` is represented by `list`; an enum type
carries its member names. -/
inductive ValueType where
  | str
  | bool
  | int
  | path
  | list
  | enum (members : List String)
  deriving DecidableEq

/-- The string-to-list pre-step of `_convertType` (lines 278-284): when the
value type is a non-`str` `Sequence` subclass and the raw value is a string
it is `shlex.split` (with a warning print, which is I/O). -/
def seqSplitStep (vt : ValueType) (r : PVal) : PVal :=
  match vt, r with
  | .list, .str s => .list ((shlexSplit s).map PVal.str)
  | _, r => r

/-- `ConfigOptionBase._convertType` (loader.py lines 272-291): `None` passes
through, a string destined for a sequence type is shell-split, a `Path`
value type expands and absolutizes, and otherwise `self.valueType(result)`
is applied. -/
def convertType (st : LoaderState) (vt : ValueType) (result : Option PVal) :
    Except PyErr (Option PVal) :=
  match result with
  | none => .ok none
  | some r0 =>
    let r := seqSplitStep vt r0
    match vt with
    | .path => .ok (some (.path (coercePath st (pyStr r))))
    | .str => .ok (some (.str (pyStr r)))
    | .bool => .ok (some (.bool (pyTruthy r)))
    | .int =>
      match pyIntOf r with
      | .ok v => .ok (some v)
      | .error e => .error e
    | .list =>
      match pyListOf r with
      | .ok v => .ok (some v)
      | .error e => .error e
    | .enum ms =>
      match enumCall ms r with
      | .ok v => .ok (some v)
      | .error e => .error e

/-! ### Option descriptors and the source-layer resolver -/

/-- The per-option metadata of `ConfigOptionBase` (plus the argparse action
attributes `_loadFromJson` consults).  A `ComputedDefaultValue` default is
represented by the value it computes for the load under consideration
(`_getDefaultValue` calls it with the live config; no claim depends on that
dependency). -/
structure ConfigOption where
  name : String
  shortname : Option String
  defaultVal : Option PVal
  valueType : ValueType
  fallbackName : Option String
  /-- `action.option_strings` of the argparse action added for this option. -/
  optionStrings : List String
  /-- `action.dest`. -/
  dest : String

/-- `addOption` with the standard argparse wiring: one long option
`--<name>` whose `dest` is the name with `-` mapped to `_`. -/
def mkOption (name : String) (vt : ValueType) (defaultVal : Option PVal)
    (fallback : Option String) : ConfigOption :=
  { name := name, shortname := none, defaultVal := defaultVal, valueType := vt,
    fallbackName := fallback, optionStrings := ["--" ++ name], dest := destOf name }

/-- `addBoolOption` with its default `False`. -/
def mkBoolOption (name : String) : ConfigOption :=
  mkOption name .bool (some (.bool false)) none

/-- `addBoolOption` for a target-specific option with `_fallback_name`. -/
def mkBoolFallbackOption (name : String) (fallback : String) : ConfigOption :=
  mkOption name .bool (some (.bool false)) (some fallback)

/-- The argparse result for one boolean option: the `store_true` action for
`--<name>` and the `store_false` action for the negated name share a `dest`
whose default is `None` (`CommandLineConfigOption.__init__`, lines
319-343), so the last flag on the command line wins and no flag leaves
`None`. -/
def parseBoolFlag (name : String) (argv : List String) : Option Bool :=
  argv.foldl
    (fun acc a =>
      if a = "--" ++ name then some true
      else if a = "--" ++ negatedName name then some false
      else acc)
    none

/-- `CommandLineConfigOption.loadFromCommandLine`:
`getattr(self._loader._parsedArgs, self.action.dest)`. -/
def loadFromCommandLine (st : LoaderState) (o : ConfigOption) : Option PVal :=
  st.parsedArgs o.dest

/-- `obj.get(ref, {})` during the nested-object traversal: defined only on
dicts; on anything else Python raises `AttributeError`. -/
def pyGetD (v : PVal) (key : String) (dflt : PVal) : Except PyErr PVal :=
  match v with
  | .obj es => .ok ((assocGet es key).getD dflt)
  | _ => .error .attributeError

/-- `for objRef in jsonPath: jsonObject = jsonObject.get(objRef, {})`. -/
def jsonTraverse : PVal → List String → Except PyErr PVal
  | obj, [] => .ok obj
  | obj, ref :: rest =>
    match pyGetD obj ref (.obj []) with
    | .error e => .error e
    | .ok nxt => jsonTraverse nxt rest

/-- `obj.get(key, None)` for the final lookup step. -/
def pyGetOpt (v : PVal) (key : String) : Except PyErr (Option PVal) :=
  match v with
  | .obj es => .ok (assocGet es key)
  | _ => .error .attributeError

/-- `JsonAndCommandLineConfigOption._lookupKeyInJson` (lines 388-399): an
exact top-level hit wins; otherwise any `/` in the name is treated as an
object reference — all but the last component are traversed with
`.get(ref, {})` and the last component is looked up in the object
reached. -/
def lookupKeyInJson (json : List (String × PVal)) (fullOptionName : String) :
    Except PyErr (Option PVal) :=
  match assocGet json fullOptionName with
  | some v => .ok (some v)
  | none =>
    let jsonPath := pySplitSlash fullOptionName
    let jsonKey := jsonPath.getLastD ""
    match jsonTraverse (.obj json) jsonPath.dropLast with
    | .error e => .error e
    | .ok jsonObject => pyGetOpt jsonObject jsonKey

/-- The alternate-spelling loop of `_loadFromJson`: every
`action.option_strings` entry starting with `--` is tried (with a
deprecation warning print) until one hits. -/
def loadFromJsonAlternates (json : List (String × PVal)) :
    List String → Except PyErr (Option (PVal × String))
  | [] => .ok none
  | optName :: rest =>
    match optName.data with
    | '-' :: '-' :: keyChars =>
      (match lookupKeyInJson json (String.mk keyChars) with
       | .error e => .error e
       | .ok (some v) => .ok (some (v, String.mk keyChars))
       | .ok none => loadFromJsonAlternates json rest)
    | _ => loadFromJsonAlternates json rest

/-- `JsonAndCommandLineConfigOption._loadFromJson` (lines 401-423): the
primary key, then the alternate long-option spellings, then the legacy
`action.dest` top-level key (for which `used_key` stays `None`).  Returns
`(value?, used_key?)`. -/
def loadFromJson (st : LoaderState) (o : ConfigOption) (fullOptionName : String) :
    Except PyErr (Option PVal × Option String) :=
  match lookupKeyInJson st.json fullOptionName with
  | .error e => .error e
  | .ok (some v) => .ok (some v, some fullOptionName)
  | .ok none =>
    match loadFromJsonAlternates st.json o.optionStrings with
    | .error e => .error e
    | .ok (some (v, k)) => .ok (some v, some k)
    | .ok none =>
      match assocGet st.json o.dest with
      | some v => .ok (some v, none)
      | none => .ok (none, none)

/-- `JsonAndCommandLineConfigOption._loadOptionImpl` (lines 370-386): the
command-line value wins when present (the `fromCmdLine != self.action.default`
guard is always true then, because `action.default` is asserted to be `None`
in `__init__`, line 347); otherwise the JSON value; otherwise `None`. -/
def jsonAndCmdLoadOptionImpl (st : LoaderState) (o : ConfigOption) :
    Except PyErr (Option PVal) :=
  match loadFromCommandLine st o with
  | some v => .ok (some v)
  | none =>
    match loadFromJson st o o.name with
    | .error e => .error e
    | .ok (some v, _) => .ok (some v)
    | .ok (none, _) => .ok none

/-- `ConfigOptionBase._getDefaultValue`: the literal default, or the value a
`ComputedDefaultValue` produces for this load. -/
def getDefaultValue (o : ConfigOption) : Option PVal := o.defaultVal

/-- The `try/except ValueError` around `self._convertType(result)` in
`loadOption` (lines 234-240): a `ValueError` becomes a fatal user-facing
error naming the option and offending value (`fatalError` then exits);
other exceptions propagate. -/
def applyConvert (st : LoaderState) (o : ConfigOption) (result : Option PVal) :
    Except PyErr (Option PVal) :=
  match convertType st o.valueType result with
  | .ok r => .ok r
  | .error (.valueError msg) =>
    .error (.fatalExit ("Invalid value for option '" ++ o.name
      ++ "': could not convert '" ++ (match result with | some v => pyStr v | none => "None")
      ++ "': " ++ msg))
  | .error e => .error e

/-- `ConfigOptionBase.loadOption` (lines 222-241): resolve with
`self._loadOptionImpl`; if that produced `None` and `_fallback_name` is set,
resolve the fallback option with *its* `_loadOptionImpl` (asserting it is
registered); if still `None` take the default; finally coerce. -/
def loadOption (st : LoaderState) (opts : List (String × ConfigOption))
    (o : ConfigOption) : Except PyErr (Option PVal) :=
  match jsonAndCmdLoadOptionImpl st o with
  | .error e => .error e
  | .ok r0 =>
    let afterFallback : Except PyErr (Option PVal) :=
      match r0, o.fallbackName with
      | none, some fn =>
        (match assocGet opts fn with
         | none => .error .assertionError
         | some fo => jsonAndCmdLoadOptionImpl st fo)
      | r0, _ => .ok r0
    match afterFallback with
    | .error e => .error e
    | .ok r1 =>
      applyConvert st o (match r1 with | none => getDefaultValue o | some v => some v)

/-! ### The JSON config store
(`dict_raise_on_duplicates`, `__load_json_with_comments`,
`__load_json_with_includes`)

A file on disk is modelled by its parse tree — a `PVal` whose objects may
still contain duplicate keys, exactly the ordered pairs `json.loads` hands
to its `object_pairs_hook`.  Comment stripping and the textual grammar are
the I/O side of `__load_json_with_comments`; its logic is the per-object
duplicate check.  The interactive "Continue? y/[N]" prompt is modelled in
its non-interactive branch (`not sys.__stdin__.isatty()`), where the
exception is re-raised. -/

/-- The accumulator loop of `dict_raise_on_duplicates`:
`d[k] = v` for fresh keys, `SyntaxError("duplicate key: %r" % (k,))`
otherwise. -/
def dictRaiseGo : List (String × PVal) → List (String × PVal) →
    Except PyErr (List (String × PVal))
  | d, [] => .ok d
  | d, (k, v) :: rest =>
    if containsKey d k then .error (.syntaxError ("duplicate key: '" ++ k ++ "'"))
    else dictRaiseGo (d ++ [(k, v)]) rest

/-- `dict_raise_on_duplicates` (loader.py lines 445-453), the
`object_pairs_hook` passed to `json.loads`. -/
def dict_raise_on_duplicates (pairs : List (String × PVal)) :
    Except PyErr (List (String × PVal)) :=
  dictRaiseGo [] pairs

/-- Map an `Except`-valued function over the values of ordered pairs. -/
def exceptMapEntries (g : PVal → Except PyErr PVal) :
    List (String × PVal) → Except PyErr (List (String × PVal))
  | [] => .ok []
  | (k, v) :: rest =>
    match g v with
    | .error e => .error e
    | .ok v2 =>
      match exceptMapEntries g rest with
      | .error e => .error e
      | .ok rest2 => .ok ((k, v2) :: rest2)

/-- Apply `dict_raise_on_duplicates` to every object of a parse tree, inner
objects first — the order in which `json.loads` invokes the hook.  Fuelled
by nesting depth (any fuel at least the tree depth gives the parse
result). -/
def checkDupGo : Nat → PVal → Except PyErr PVal
  | 0, _ => .error .recursionError
  | f + 1, .obj entries =>
    (match exceptMapEntries (checkDupGo f) entries with
     | .error e => .error e
     | .ok es =>
       match dict_raise_on_duplicates es with
       | .error e => .error e
       | .ok d => .ok (.obj d))
  | f + 1, .list xs =>
    (match exceptMapList (checkDupGo f) xs with
     | .error e => .error e
     | .ok ys => .ok (.list ys))
  | _ + 1, v => .ok v

/-- The file system: path components of a config file mapped to its parse
tree. -/
def FileSys : Type := List (List String × PVal)

/-- `d.get(k)` keyed by a path. -/
def fsGet : FileSys → List String → Option PVal
  | [], _ => none
  | (p0, v) :: rest, p => if p0 = p then some v else fsGet rest p

/-- `JsonAndCommandLineConfigLoader.__load_json_with_comments`
(lines 506-522): open the file (raising `FileNotFoundError` when it does
not exist) and parse it with `object_pairs_hook=dict_raise_on_duplicates`. -/
def load_json_with_comments (fs : FileSys) (fuel : Nat) (p : List String) :
    Except PyErr PVal :=
  match fsGet fs p with
  | none => .error (.fileNotFound p)
  | some raw => checkDupGo fuel raw

/-- `config_path.parent`. -/
def parentPath (p : List String) : List String := p.dropLast

/-- The path components `pathlib` keeps of an include value. -/
def includeParts (s : String) : List String :=
  ((splitChars '/' s.data).filter (fun c => !c.isEmpty && c ≠ ['.'])).map String.mk

/-- `config_path.parent / include_value`: an absolute include value
replaces the directory, a relative one is appended to it. -/
def resolveInclude (dir : List String) (s : String) : List String :=
  match s.data with
  | '/' :: _ => includeParts s
  | _ => dir ++ includeParts s

/-- Python `base.update(overlay)`: keys already in `base` keep their
position but take `overlay`'s value; new keys are appended in `overlay`
order. -/
def dictUpdate (base overlay : List (String × PVal)) : List (String × PVal) :=
  base.map (fun kv =>
      match assocGet overlay kv.1 with
      | some v => (kv.1, v)
      | none => kv)
    ++ overlay.filter (fun kv => !(containsKey base kv.1))

/-- `JsonAndCommandLineConfigLoader.__load_json_with_includes`
(lines 524-543): load the file (errors propagate in the non-interactive
branch); if the parsed dict has a truthy `"#include"` value, resolve it
relative to the file's directory, recursively load it, and overlay this
file's keys on top with `base_json.update(result)`.  Fuelled against
include cycles (Python would hit the recursion limit). -/
def load_json_with_includes (fs : FileSys) : Nat → List String → Except PyErr PVal
  | 0, _ => .error .recursionError
  | fuel + 1, p =>
    match load_json_with_comments fs (fuel + 1) p with
    | .error e => .error e
    | .ok result =>
      match result with
      | .obj entries =>
        (match assocGet entries "#include" with
         | some iv =>
           if pyTruthy iv then
             match iv with
             | .str s =>
               (match load_json_with_includes fs fuel (resolveInclude (parentPath p) s) with
                | .error e => .error e
                | .ok (.obj baseEntries) => .ok (.obj (dictUpdate baseEntries entries))
                | .ok _ => .error .attributeError)
             | _ => .error (.typeError "unsupported operand type for /")
           else .ok (.obj entries)
         | none => .ok (.obj entries))
      | _ => .error .attributeError

/-! ### Characterizations used to settle the ordering claims

`resolveClaimedOrder` follows the spec's words; the others are
re-arrangements of the code used to state what the code does. -/

/-- Steps 3-4 of the spec's contract: the option's own JSON value, then its
default, then coercion. -/
def ownJsonThenDefault (st : LoaderState) (o : ConfigOption) : Except PyErr (Option PVal) :=
  match loadFromJson st o o.name with
  | .error e => .error e
  | .ok (some v, _) => applyConvert st o (some v)
  | .ok (none, _) => applyConvert st o (getDefaultValue o)

/-- Modelled from the spec: the resolve contract of spec section 4.3 in the
order the claim states it — (1) the option's own command-line value;
(2) if absent and a fallback is declared, the fallback option's
command-line-or-JSON value; (3) the option's own JSON value; (4) the
default — i.e. with the fallback lookup consulted *before* the option's own
JSON value. -/
def resolveClaimedOrder (st : LoaderState) (opts : List (String × ConfigOption))
    (o : ConfigOption) : Except PyErr (Option PVal) :=
  match loadFromCommandLine st o with
  | some v => applyConvert st o (some v)
  | none =>
    match o.fallbackName with
    | some fn =>
      (match assocGet opts fn with
       | none => .error .assertionError
       | some fo =>
         match jsonAndCmdLoadOptionImpl st fo with
         | .error e => .error e
         | .ok (some v) => applyConvert st o (some v)
         | .ok none => ownJsonThenDefault st o)
    | none => ownJsonThenDefault st o

/-- The resolution order the code actually implements, written as an
explicit first-hit cascade: (1) own command line; (2) own JSON; (3) the
fallback option's command-line-or-JSON value; (4) the default. -/
def resolveAmendedOrder (st : LoaderState) (opts : List (String × ConfigOption))
    (o : ConfigOption) : Except PyErr (Option PVal) :=
  match loadFromCommandLine st o with
  | some v => applyConvert st o (some v)
  | none =>
    match loadFromJson st o o.name with
    | .error e => .error e
    | .ok (some v, _) => applyConvert st o (some v)
    | .ok (none, _) =>
      match o.fallbackName with
      | none => applyConvert st o (getDefaultValue o)
      | some fn =>
        match assocGet opts fn with
        | none => .error .assertionError
        | some fo =>
          match jsonAndCmdLoadOptionImpl st fo with
          | .error e => .error e
          | .ok (some v) => applyConvert st o (some v)
          | .ok none => applyConvert st o (getDefaultValue o)

/-- Resolution through the option's own sources only (own command line, own
JSON, own default, then coercion) — no registry and no fallback lookup. -/
def ownOnlyResolve (st : LoaderState) (o : ConfigOption) : Except PyErr (Option PVal) :=
  match jsonAndCmdLoadOptionImpl st o with
  | .error e => .error e
  | .ok (some v) => applyConvert st o (some v)
  | .ok none => applyConvert st o (getDefaultValue o)

/-! ### Concrete loads and options used by the per-claim theorems -/

/-- The concrete scenario of `test_cross_compile_project_inherits`
(lines 164-168): `--qtbase/build-tests` on the command line and
`"qtbase-mips/build-tests": false` in the JSON file. -/
def inheritSt : LoaderState :=
  { parsedArgs := fun d => if d = "qtbase/build_tests" then some (.bool true) else none,
    json := [("qtbase-mips/build-tests", .bool false)],
    cwd := ["home"], env := [], users := [], ownHomeDir := none }

/-- The per-target option `qtbase-mips/build-tests`, falling back to
`qtbase/build-tests`. -/
def qtbaseMipsOpt : ConfigOption :=
  mkBoolFallbackOption "qtbase-mips/build-tests" "qtbase/build-tests"

/-- The base option `qtbase/build-tests`. -/
def qtbaseOpt : ConfigOption := mkBoolOption "qtbase/build-tests"

/-- The registry holding the base option. -/
def inheritOpts : List (String × ConfigOption) := [("qtbase/build-tests", qtbaseOpt)]

/-- A load with no command-line flags and no config file. -/
def emptySt : LoaderState :=
  { parsedArgs := fun _ => none, json := [], cwd := ["home"], env := [],
    users := [], ownHomeDir := none }

/-- The `skip-update` scenarios of `test_skip_update`: no flags and no
config file; `--skip-update` against `{"skip-update": false}`; and
`--no-skip-update` against `{"skip-update": true}`. -/
def skipUpdateSt (argv : List String) (json : List (String × PVal)) : LoaderState :=
  { parsedArgs := fun d =>
      if d = "skip_update" then Option.map PVal.bool (parseBoolFlag "skip-update" argv)
      else none,
    json := json, cwd := ["home"], env := [], users := [], ownHomeDir := none }

/-- The include scenario of `test_config_file_include`: a base file setting
`cheri-bits` to 256, included by a file setting it to 128 — with the
`#include` key written first in one variant and last in the other. -/
def includeFs : FileSys :=
  [ (["cfg", "config.json"],
      .obj [("#include", .str "256-common.json"), ("cheri-bits", .int 128)]),
    (["cfg", "flipped.json"],
      .obj [("cheri-bits", .int 128), ("#include", .str "256-common.json")]),
    (["cfg", "256-common.json"], .obj [("cheri-bits", .int 256)]) ]

/-- A load whose JSON document supplies the string `"xyz"` for the boolean
option `assume-completed`. -/
def boolJsonSt : LoaderState :=
  { parsedArgs := fun _ => none, json := [("assume-completed", .str "xyz")],
    cwd := ["home"], env := [], users := [], ownHomeDir := none }

/-- A load whose JSON document supplies the string `"abc"` for the int
option `cheri-bits`. -/
def intJsonSt : LoaderState :=
  { parsedArgs := fun _ => none, json := [("cheri-bits", .str "abc")],
    cwd := ["home"], env := [], users := [], ownHomeDir := none }

/-- The `cheri-bits` option: int-typed with default 256. -/
def cheriBitsOpt : ConfigOption := mkOption "cheri-bits" .int (some (.int 256)) none

/-- A load under the environment `FOO='$BAR'`, `BAR='z'` with working
directory `/c`. -/
def chainedEnvSt : LoaderState :=
  { parsedArgs := fun _ => none, json := [], cwd := ["c"],
    env := [("FOO", "$BAR"), ("BAR", "z")], users := [], ownHomeDir := none }

/-- The invariant of the component lists `pathlib` keeps: no component is
empty, `"."`, or contains a slash. -/
def PartsClean (ps : List (List Char)) : Prop :=
  ∀ p ∈ ps, p ≠ [] ∧ p ≠ ['.'] ∧ '/' ∉ p

/-- `os.getcwd()` is a normalized absolute path; this is the corresponding
wellformedness of the modelled `cwd` components. -/
def cwdCleanB (st : LoaderState) : Bool :=
  st.cwd.all (fun w => !w.data.isEmpty && w.data ≠ ['.'] && !w.data.contains '/')

/-! ### Helper lemmas -/

theorem jsonTraverse_emptyObj (path : List String) :
    jsonTraverse (.obj []) path = .ok (.obj []) := by
  induction path with
  | nil => rfl
  | cons ref rest ih => simpa [jsonTraverse, pyGetD, assocGet] using ih

theorem lookupKeyInJson_nil (name : String) : lookupKeyInJson [] name = .ok none := by
  unfold lookupKeyInJson
  simp [assocGet, jsonTraverse_emptyObj, pyGetOpt]

theorem loadFromJsonAlternates_nil (ls : List String) :
    loadFromJsonAlternates [] ls = .ok none := by
  induction ls with
  | nil => rfl
  | cons a rest ih =>
    unfold loadFromJsonAlternates
    cases h : a.data with
    | nil => exact ih
    | cons c cs =>
      by_cases hc : c = '-'
      · subst hc
        cases cs with
        | nil => exact ih
        | cons c2 cs2 =>
          by_cases hc2 : c2 = '-'
          · subst hc2
            simp [lookupKeyInJson_nil, ih]
          · simp [hc2, ih]
      · simp [hc, ih]

theorem loadFromJson_nilJson (st : LoaderState) (o : ConfigOption) (n : String)
    (hj : st.json = []) : loadFromJson st o n = .ok (none, none) := by
  unfold loadFromJson
  rw [hj]
  simp [lookupKeyInJson_nil, loadFromJsonAlternates_nil, assocGet]

/-! ### Claim C1 -/

/-- **C1**: for an option declared with a fallback name, a value of the
option itself — from the command line, or (when no command-line value is
present) from the JSON file — always wins: `loadOption` coerces exactly
that value, whatever the fallback (base) option's layers hold.  In
particular a target-specific JSON entry beats a base-level command-line
entry (see the witness). -/
theorem claim1_target_specific_value_wins (st : LoaderState)
    (opts : List (String × ConfigOption)) (o : ConfigOption) (f : String) (v : PVal)
    (_hfb : o.fallbackName = some f)
    (hset : loadFromCommandLine st o = some v ∨
      (loadFromCommandLine st o = none ∧
        ∃ k, loadFromJson st o o.name = .ok (some v, k))) :
    loadOption st opts o = applyConvert st o (some v) := by
  have himpl : jsonAndCmdLoadOptionImpl st o = .ok (some v) := by
    unfold jsonAndCmdLoadOptionImpl
    rcases hset with hc | ⟨hc, k, hj⟩
    · rw [hc]
    · rw [hc, hj]
  unfold loadOption
  rw [himpl]

/-- C1 witness: with the base option set to `True` on the command line and
the target-specific option set to `false` only in JSON, the target-specific
option resolves to `false` — its JSON entry beat the base's command-line
entry. -/
theorem claim1_witness :
    loadOption inheritSt inheritOpts qtbaseMipsOpt = .ok (some (.bool false)) ∧
    loadFromCommandLine inheritSt qtbaseOpt = some (.bool true) := by
  constructor
  · have h := claim1_target_specific_value_wins inheritSt inheritOpts qtbaseMipsOpt
      "qtbase/build-tests" (.bool false) rfl
      (Or.inr ⟨rfl, ⟨some "qtbase-mips/build-tests", rfl⟩⟩)
    exact h.trans rfl
  · rfl

/-! ### Claim C2 -/

/-- C2 counterexample: the spec's numbered contract (step 2 — the fallback's
command-line-or-JSON value — consulted before step 3 — the option's own
JSON value) disagrees with the code at a concrete input: with
`--qtbase/build-tests` on the command line and
`"qtbase-mips/build-tests": false` in JSON, `loadOption` resolves the
per-target option to `false` (own JSON first) while the claimed order
resolves it to `true` (fallback command line first). -/
theorem claim2_counterexample :
    loadOption inheritSt inheritOpts qtbaseMipsOpt = .ok (some (.bool false)) ∧
    resolveClaimedOrder inheritSt inheritOpts qtbaseMipsOpt = .ok (some (.bool true)) ∧
    (Except.ok (some (PVal.bool false)) : Except PyErr (Option PVal)) ≠
      .ok (some (.bool true)) := by
  refine ⟨rfl, rfl, ?_⟩
  intro h
  simp at h

/-- **C2 (amended)**: `resolve` applies its sources in the order
(1) the option's own command-line value; (2) the option's own JSON value;
(3) if both are absent and `fallbackName` is set, the fallback option's
command-line-or-JSON value (steps 1-2 of the fallback, never its default);
(4) the literal or computed default — i.e. the option's own JSON value is
consulted *before* the fallback lookup, not after it. -/
theorem claim2_resolution_order (st : LoaderState)
    (opts : List (String × ConfigOption)) (o : ConfigOption) :
    loadOption st opts o = resolveAmendedOrder st opts o := by
  cases hc : loadFromCommandLine st o with
  | some v => simp [loadOption, resolveAmendedOrder, jsonAndCmdLoadOptionImpl, hc]
  | none =>
    cases hj : loadFromJson st o o.name with
    | error e => simp [loadOption, resolveAmendedOrder, jsonAndCmdLoadOptionImpl, hc, hj]
    | ok pr =>
      obtain ⟨vOpt, k⟩ := pr
      cases vOpt with
      | some v => simp [loadOption, resolveAmendedOrder, jsonAndCmdLoadOptionImpl, hc, hj]
      | none =>
        cases hf : o.fallbackName with
        | none => simp [loadOption, resolveAmendedOrder, jsonAndCmdLoadOptionImpl, hc, hj, hf]
        | some fn =>
          cases ha : assocGet opts fn with
          | none =>
            simp [loadOption, resolveAmendedOrder, jsonAndCmdLoadOptionImpl, hc, hj, hf, ha]
          | some fo =>
            cases hc2 : loadFromCommandLine st fo with
            | some v2 =>
              simp [loadOption, resolveAmendedOrder, jsonAndCmdLoadOptionImpl,
                hc, hj, hf, ha, hc2]
            | none =>
              cases hj2 : loadFromJson st fo fo.name with
              | error e =>
                simp [loadOption, resolveAmendedOrder, jsonAndCmdLoadOptionImpl,
                  hc, hj, hf, ha, hc2, hj2]
              | ok pr2 =>
                obtain ⟨vOpt2, k2⟩ := pr2
                cases vOpt2 <;>
                  simp [loadOption, resolveAmendedOrder, jsonAndCmdLoadOptionImpl,
                    hc, hj, hf, ha, hc2, hj2]

/-! ### Claim C3 -/

/-- **C3**: the fallback lookup only ever inspects the fallback option's
command-line and JSON layers, never its default.  Part 1: when an option
and its registered fallback are both unset on the command line and absent
from JSON, the option resolves to its *own* default.  Part 2: an option
declared without a fallback name resolves through its own sources only —
the result does not depend on the registry at all (`ownOnlyResolve` reads
nothing but the option's own command line, JSON keys and default). -/
theorem claim3_fallback_never_uses_fallback_default :
    (∀ (st : LoaderState) (opts : List (String × ConfigOption)) (o fo : ConfigOption)
        (f : String),
      o.fallbackName = some f →
      assocGet opts f = some fo →
      loadFromCommandLine st o = none →
      loadFromJson st o o.name = .ok (none, none) →
      loadFromCommandLine st fo = none →
      loadFromJson st fo fo.name = .ok (none, none) →
      loadOption st opts o = applyConvert st o (getDefaultValue o)) ∧
    (∀ (st : LoaderState) (opts : List (String × ConfigOption)) (o : ConfigOption),
      o.fallbackName = none →
      loadOption st opts o = ownOnlyResolve st o) := by
  constructor
  · intro st opts o fo f hfb ha hc hj hc2 hj2
    simp [loadOption, jsonAndCmdLoadOptionImpl, hfb, ha, hc, hj, hc2, hj2]
  · intro st opts o hfb
    cases hi : jsonAndCmdLoadOptionImpl st o with
    | error e => simp [loadOption, ownOnlyResolve, hi]
    | ok r =>
      cases r with
      | none => simp [loadOption, ownOnlyResolve, hi, hfb]
      | some v => simp [loadOption, ownOnlyResolve, hi]

/-- C3 witness: with nothing set anywhere, `qtbase-mips/build-tests`
resolves through its own default (`false`), and the fallback-free base
option resolves through its own sources only. -/
theorem claim3_witness :
    loadOption emptySt inheritOpts qtbaseMipsOpt
      = applyConvert emptySt qtbaseMipsOpt (getDefaultValue qtbaseMipsOpt) ∧
    loadOption emptySt inheritOpts qtbaseOpt = ownOnlyResolve emptySt qtbaseOpt := by
  constructor
  · exact claim3_fallback_never_uses_fallback_default.1 emptySt inheritOpts
      qtbaseMipsOpt qtbaseOpt "qtbase/build-tests" rfl rfl rfl rfl rfl rfl
  · exact claim3_fallback_never_uses_fallback_default.2 emptySt inheritOpts qtbaseOpt rfl

/-! ### Claim C7 -/

theorem splitChars_ne_nil (sep : Char) (cs : List Char) : splitChars sep cs ≠ [] := by
  cases cs with
  | nil => simp [splitChars]
  | cons c rest =>
    unfold splitChars
    by_cases hc : c = sep
    · simp [hc]
    · simp only [hc, if_false]
      cases h : splitChars sep rest with
      | nil => simp
      | cons p ps => simp

theorem joinParts_cons (x : List Char) (l : List (List Char)) (h : l ≠ []) :
    joinParts (x :: l) = x ++ '/' :: joinParts l := by
  cases l with
  | nil => exact absurd rfl h
  | cons p ps => rfl

theorem joinParts_splitChars (cs : List Char) :
    joinParts (splitChars '/' cs) = cs := by
  induction cs with
  | nil => rfl
  | cons c rest ih =>
    unfold splitChars
    by_cases hc : c = '/'
    · rw [if_pos hc, joinParts_cons _ _ (splitChars_ne_nil '/' rest), ih, hc]
      rfl
    · rw [if_neg hc]
      cases h : splitChars '/' rest with
      | nil => exact absurd h (splitChars_ne_nil '/' rest)
      | cons p ps =>
        cases ps with
        | nil =>
          have : joinParts [p] = rest := by rw [← ih, h]
          simp [joinParts] at this ⊢
          exact this
        | cons q qs =>
          have hj : joinParts (p :: q :: qs) = rest := by rw [← ih, h]
          calc joinParts ((c :: p) :: q :: qs)
              = (c :: p) ++ '/' :: joinParts (q :: qs) := rfl
            _ = c :: (p ++ '/' :: joinParts (q :: qs)) := rfl
            _ = c :: joinParts (p :: q :: qs) := rfl
            _ = c :: rest := by rw [hj]

theorem joinParts_append_single_length (xs : List (List Char)) (pre p : List Char) :
    (joinParts (xs ++ [pre ++ p])).length = (joinParts (xs ++ [p])).length + pre.length := by
  induction xs with
  | nil => simp [joinParts, Nat.add_comm]
  | cons x xs ih =>
    have h1 : (xs ++ [pre ++ p]) ≠ [] := by simp
    have h2 : (xs ++ [p]) ≠ [] := by simp
    rw [List.cons_append, List.cons_append, joinParts_cons _ _ h1, joinParts_cons _ _ h2]
    simp only [List.length_append, List.length_cons]
    omega

theorem getLastD_concat' (l : List (List Char)) (b d : List Char) :
    (l ++ [b]).getLastD d = b := by
  induction l with
  | nil => rfl
  | cons x xs ih =>
    cases xs with
    | nil => rfl
    | cons y ys => simpa using ih

/-- The negated flag name is three characters longer than the option
name. -/
theorem negatedName_length (name : String) :
    (negatedName name).length = name.length + 3 := by
  show (negatedName name).data.length = name.data.length + 3
  unfold negatedName
  obtain hnil | ⟨L, b, hLb⟩ := (splitChars '/' name.data).eq_nil_or_concat
  · exact absurd hnil (splitChars_ne_nil '/' name.data)
  · rw [List.concat_eq_append] at hLb
    have hname : name.data = joinParts (L ++ [b]) := by
      rw [← hLb, joinParts_splitChars]
    rw [hLb]
    simp only [List.dropLast_concat, getLastD_concat']
    show (joinParts (L ++ [['n', 'o', '-'] ++ b])).length = name.data.length + 3
    rw [joinParts_append_single_length L ['n', 'o', '-'] b, hname]
    rfl

/-- Hence the negated flag name never equals the option name. -/
theorem negatedName_ne (name : String) : negatedName name ≠ name := by
  intro h
  have hlen := congrArg String.length h
  rw [negatedName_length] at hlen
  omega

/-- **C7**: for a boolean option with default `false` (the
`addBoolOption` wiring: a `store_true` `--name` flag and a `store_false`
negated flag sharing a `dest` that defaults to `None`):
no flag and no config file resolves to `false`; `--name` parses to `true`
and the negated flag to `false` (last flag wins); and whenever either flag
was passed, the command line decides the resolved value no matter what the
JSON document contains. -/
theorem claim7_bool_option_resolution (name : String) :
    (∀ (st : LoaderState) (argv : List String),
      st.parsedArgs (destOf name) = Option.map PVal.bool (parseBoolFlag name argv) →
      parseBoolFlag name argv = none →
      st.json = [] →
      loadOption st [] (mkBoolOption name) = .ok (some (.bool false))) ∧
    (∀ (st : LoaderState) (opts : List (String × ConfigOption)) (argv : List String)
        (b : Bool),
      st.parsedArgs (destOf name) = Option.map PVal.bool (parseBoolFlag name argv) →
      parseBoolFlag name argv = some b →
      loadOption st opts (mkBoolOption name) = .ok (some (.bool b))) ∧
    (∀ argv : List String, parseBoolFlag name (argv ++ ["--" ++ name]) = some true) ∧
    (∀ argv : List String,
      parseBoolFlag name (argv ++ ["--" ++ negatedName name]) = some false) := by
  refine ⟨?_, ?_, ?_, ?_⟩
  · intro st argv hargs hflag hjson
    have hj := loadFromJson_nilJson st (mkBoolOption name) name hjson
    simp only [mkBoolOption, mkOption] at hj
    rw [hflag] at hargs
    simp [loadOption, jsonAndCmdLoadOptionImpl, loadFromCommandLine, mkBoolOption,
      mkOption, hargs, hj, getDefaultValue, applyConvert, convertType, seqSplitStep,
      pyTruthy]
  · intro st opts argv b hargs hflag
    rw [hflag] at hargs
    simp [loadOption, jsonAndCmdLoadOptionImpl, loadFromCommandLine, mkBoolOption,
      mkOption, hargs, applyConvert, convertType, seqSplitStep, pyTruthy]
  · intro argv
    simp [parseBoolFlag]
  · intro argv
    have hne : ("--" ++ negatedName name) ≠ ("--" ++ name) := by
      intro h
      have hd := congrArg String.data h
      simp only [String.data_append] at hd
      exact negatedName_ne name (String.ext (List.append_cancel_left hd))
    simp [parseBoolFlag, hne]

/-- C7 witness: the test scenarios evaluated concretely — default `false`
with nothing set; `--skip-update` gives `true` even against
`{"skip-update": false}`; `--no-skip-update` gives `false` even against
`{"skip-update": true}`. -/
theorem claim7_witness :
    loadOption (skipUpdateSt [] []) [] (mkBoolOption "skip-update")
      = .ok (some (.bool false)) ∧
    loadOption (skipUpdateSt ["--skip-update"] [("skip-update", .bool false)]) []
      (mkBoolOption "skip-update") = .ok (some (.bool true)) ∧
    loadOption (skipUpdateSt ["--no-skip-update"] [("skip-update", .bool true)]) []
      (mkBoolOption "skip-update") = .ok (some (.bool false)) ∧
    parseBoolFlag "skip-update" ([] ++ ["--" ++ "skip-update"]) = some true := by
  refine ⟨?_, ?_, ?_, ?_⟩
  · exact (claim7_bool_option_resolution "skip-update").1 (skipUpdateSt [] []) [] rfl rfl rfl
  · exact (claim7_bool_option_resolution "skip-update").2.1
      (skipUpdateSt ["--skip-update"] [("skip-update", .bool false)]) []
      ["--skip-update"] true rfl rfl
  · exact (claim7_bool_option_resolution "skip-update").2.1
      (skipUpdateSt ["--no-skip-update"] [("skip-update", .bool true)]) []
      ["--no-skip-update"] false rfl rfl
  · exact (claim7_bool_option_resolution "skip-update").2.2.1 []

/-! ### Claim C10 -/

/-- **C10**: `_lookupKeyInJson` returns the exact top-level (flat, dotted)
key when it is present — the nested-object form is never consulted then —
and falls back to the nested traversal only when the flat key is absent:
for a name `a/b` whose flat key is missing, the result is exactly the
lookup of `b` inside the object stored at `a`. -/
theorem claim10_flat_key_beats_nested :
    (∀ (json : List (String × PVal)) (name : String) (v : PVal),
      assocGet json name = some v →
      lookupKeyInJson json name = .ok (some v)) ∧
    (∀ (json : List (String × PVal)) (name a b : String) (inner : List (String × PVal)),
      pySplitSlash name = [a, b] →
      assocGet json name = none →
      assocGet json a = some (.obj inner) →
      lookupKeyInJson json name = .ok (assocGet inner b)) := by
  constructor
  · intro json name v h
    simp [lookupKeyInJson, h]
  · intro json name a b inner hsplit hflat ha
    simp [lookupKeyInJson, hflat, hsplit, jsonTraverse, pyGetD, pyGetOpt, ha]

/-- C10 witness: with both `"llvm/build-type"` and
`{"llvm": {"build-type": ...}}` present the flat key's value is returned;
with the flat key absent the nested value is returned. -/
theorem claim10_witness :
    lookupKeyInJson
        [("llvm/build-type", .str "flat"), ("llvm", .obj [("build-type", .str "nested")])]
        "llvm/build-type" = .ok (some (.str "flat")) ∧
    lookupKeyInJson [("llvm", .obj [("build-type", .str "nested")])]
        "llvm/build-type" = .ok (some (.str "nested")) := by
  constructor
  · exact claim10_flat_key_beats_nested.1
      [("llvm/build-type", .str "flat"), ("llvm", .obj [("build-type", .str "nested")])]
      "llvm/build-type" (.str "flat") rfl
  · exact (claim10_flat_key_beats_nested.2
      [("llvm", .obj [("build-type", .str "nested")])]
      "llvm/build-type" "llvm" "build-type"
      [("build-type", .str "nested")] rfl rfl rfl).trans rfl

/-! ### Dictionary lemmas for `dict.update` and the duplicate-key check -/

theorem assocGet_append {α : Type} (l1 l2 : List (String × α)) (k : String) :
    assocGet (l1 ++ l2) k
      = match assocGet l1 k with
        | some v => some v
        | none => assocGet l2 k := by
  induction l1 with
  | nil => simp [assocGet]
  | cons kv rest ih =>
    obtain ⟨k0, v0⟩ := kv
    by_cases hk : k0 = k
    · simp [assocGet, hk]
    · simp [assocGet, hk, ih]

theorem assocGet_map_replace (b o : List (String × PVal)) (k : String) :
    assocGet (b.map fun kv =>
        match assocGet o kv.1 with
        | some v => (kv.1, v)
        | none => kv) k
      = match assocGet b k with
        | none => none
        | some w =>
          match assocGet o k with
          | some v => some v
          | none => some w := by
  induction b with
  | nil => simp [assocGet]
  | cons kv rest ih =>
    obtain ⟨k0, v0⟩ := kv
    by_cases hk : k0 = k
    · subst hk
      cases ho : assocGet o k0 <;> simp [assocGet, ho]
    · cases ho : assocGet o k0 <;> simp [assocGet, ho, hk, ih]

theorem containsKey_iff_mem {α : Type} (l : List (String × α)) (k : String) :
    containsKey l k = true ↔ k ∈ l.map Prod.fst := by
  induction l with
  | nil => simp [containsKey, assocGet]
  | cons kv rest ih =>
    obtain ⟨k0, v0⟩ := kv
    by_cases hk : k0 = k
    · simp [containsKey, assocGet, hk]
    · simp only [containsKey, assocGet, hk, if_false, List.map_cons, List.mem_cons]
      rw [← containsKey]
      rw [ih]
      constructor
      · exact fun h => Or.inr h
      · rintro (h | h)
        · exact absurd h.symm hk
        · exact h

theorem assocGet_filter_notin (o b : List (String × PVal)) (k : String) :
    assocGet (o.filter fun kv => !(containsKey b kv.1)) k
      = if containsKey b k then none else assocGet o k := by
  induction o with
  | nil => simp [assocGet]
  | cons kv rest ih =>
    obtain ⟨k0, v0⟩ := kv
    by_cases hb : containsKey b k0
    · by_cases hk : k0 = k
      · subst hk
        simp [List.filter, hb, ih]
      · simp only [List.filter, hb, Bool.not_true, ih]
        split <;> simp [assocGet, hk]
    · by_cases hk : k0 = k
      · subst hk
        simp [List.filter, hb, assocGet, ih]
      · simp [List.filter, hb, assocGet, hk, ih]

/-- The per-key behaviour of Python `base.update(overlay)`: the overlay's
value wins wherever the overlay has the key, the base's value survives
everywhere else. -/
theorem assocGet_dictUpdate (base overlay : List (String × PVal)) (k : String) :
    assocGet (dictUpdate base overlay) k
      = match assocGet overlay k with
        | some v => some v
        | none => assocGet base k := by
  unfold dictUpdate
  rw [assocGet_append, assocGet_map_replace, assocGet_filter_notin]
  cases hb : assocGet base k with
  | some w =>
    have hc : containsKey base k = true := by simp [containsKey, hb]
    cases ho : assocGet overlay k <;> simp [hc, ho]
  | none =>
    have hc : containsKey base k = false := by simp [containsKey, hb]
    cases ho : assocGet overlay k <;> simp [hc, ho, hb]

/-! ### Claim C5 -/

theorem dictRaiseGo_dup (post : List (String × PVal)) (k : String) (v : PVal) :
    ∀ (pre d : List (String × PVal)),
      containsKey (d ++ pre) k = true →
      ((d ++ pre).map Prod.fst).Nodup →
      dictRaiseGo d (pre ++ (k, v) :: post)
        = .error (.syntaxError ("duplicate key: '" ++ k ++ "'")) := by
  intro pre
  induction pre with
  | nil =>
    intro d hk _
    simp only [List.append_nil] at hk
    simp [dictRaiseGo, hk]
  | cons kv1 pre' ih =>
    intro d hk hnodup
    obtain ⟨k1, v1⟩ := kv1
    have hmap : (d ++ (k1, v1) :: pre').map Prod.fst
        = d.map Prod.fst ++ k1 :: pre'.map Prod.fst := by simp
    have hk1 : containsKey d k1 = false := by
      rw [hmap] at hnodup
      rw [List.nodup_append] at hnodup
      by_contra hcontra
      have hmem : k1 ∈ d.map Prod.fst := by
        rw [← containsKey_iff_mem]
        revert hcontra
        cases containsKey d k1 <;> simp
      exact hnodup.2.2 hmem (List.mem_cons_self k1 _)
    have hassoc : d ++ (k1, v1) :: pre' = (d ++ [(k1, v1)]) ++ pre' := by simp
    rw [List.cons_append]
    unfold dictRaiseGo
    rw [hk1]
    simp only [Bool.false_eq_true, if_false]
    exact ih (d ++ [(k1, v1)]) (by rw [← hassoc]; exact hk) (by rw [← hassoc]; exact hnodup)

/-- **C5**: the `object_pairs_hook` `dict_raise_on_duplicates` rejects the
second occurrence of any key within one JSON object with a `SyntaxError`
naming exactly that key — the second value is never kept or overwritten.
(The hook is applied to every object of the document by the parse, and the
`#include` key goes through the same mechanism; see the witness.) -/
theorem claim5_duplicate_key_error (pre post : List (String × PVal)) (k : String)
    (v : PVal)
    (hmem : containsKey pre k = true)
    (hnodup : (pre.map Prod.fst).Nodup) :
    dict_raise_on_duplicates (pre ++ (k, v) :: post)
      = .error (.syntaxError ("duplicate key: '" ++ k ++ "'")) :=
  dictRaiseGo_dup post k v pre [] (by simpa using hmem) (by simpa using hnodup)

/-- C5 witness: a second `"#include"` key in one object raises the same
duplicate-key `SyntaxError`, also when the object is parsed as a config
file (`checkDupGo` is the hook applied over the parse tree). -/
theorem claim5_witness :
    dict_raise_on_duplicates
        ([("#include", .str "128-common.json"), ("foo", .str "bar")]
          ++ ("#include", .str "256-common.json") :: [])
      = .error (.syntaxError ("duplicate key: '" ++ "#include" ++ "'")) ∧
    checkDupGo 2
        (.obj [("#include", .str "128-common.json"), ("foo", .str "bar"),
               ("#include", .str "256-common.json")])
      = .error (.syntaxError "duplicate key: '#include'") := by
  constructor
  · exact claim5_duplicate_key_error
      [("#include", .str "128-common.json"), ("foo", .str "bar")] []
      "#include" (.str "256-common.json") rfl (by decide)
  · rfl

/-! ### Claim C4 -/

/-- **C4**: a config document with a (truthy) `"#include"` key loads the
included file first — recursively, at the path resolved relative to the
including file's directory — and then overlays every key of the including
document on top: per key, the including document's value wins, and a key
absent from the including document keeps the included document's value
(so the result is independent of the textual order of the including
file's keys, which only determines dictionary order, not values). -/
theorem claim4_include_overlay (fs : FileSys) (fuel : Nat) (p : List String)
    (raw : PVal) (D B : List (String × PVal)) (s : String)
    (hfile : fsGet fs p = some raw)
    (hparse : checkDupGo (fuel + 1) raw = .ok (.obj D))
    (hinc : assocGet D "#include" = some (.str s))
    (hne : s ≠ "")
    (hbase : load_json_with_includes fs fuel (resolveInclude (parentPath p) s)
      = .ok (.obj B)) :
    load_json_with_includes fs (fuel + 1) p = .ok (.obj (dictUpdate B D)) ∧
    (∀ k, assocGet (dictUpdate B D) k
      = match assocGet D k with
        | some v => some v
        | none => assocGet B k) := by
  constructor
  · unfold load_json_with_includes
    simp only [load_json_with_comments, hfile, hparse, hinc, hbase, pyTruthy, hne]
    simp [hne]
  · intro k
    exact assocGet_dictUpdate B D k

/-- C4 witness: the including file's `cheri-bits` (128) beats the included
file's (256), in both textual orders of the including file's keys. -/
theorem claim4_witness :
    load_json_with_includes includeFs 4 ["cfg", "config.json"]
      = .ok (.obj (dictUpdate [("cheri-bits", .int 256)]
          [("#include", .str "256-common.json"), ("cheri-bits", .int 128)])) ∧
    assocGet (dictUpdate [("cheri-bits", .int 256)]
        [("#include", .str "256-common.json"), ("cheri-bits", .int 128)]) "cheri-bits"
      = some (.int 128) ∧
    load_json_with_includes includeFs 4 ["cfg", "flipped.json"]
      = .ok (.obj [("cheri-bits", .int 128), ("#include", .str "256-common.json")]) := by
  refine ⟨?_, rfl, rfl⟩
  exact (claim4_include_overlay includeFs 3 ["cfg", "config.json"]
    (.obj [("#include", .str "256-common.json"), ("cheri-bits", .int 128)])
    [("#include", .str "256-common.json"), ("cheri-bits", .int 128)]
    [("cheri-bits", .int 256)] "256-common.json"
    rfl rfl rfl (by decide) rfl).1

/-! ### Claim C6 -/

/-- **C6**: when the `"#include"` value of a config document names a file
that does not exist, loading fails with the `FileNotFoundError` for the
resolved include path — in the modelled non-interactive context
(`not sys.__stdin__.isatty()`) the recursive loader re-raises it, so the
missing include is never silently ignored. -/
theorem claim6_missing_include_error (fs : FileSys) (fuel : Nat) (p : List String)
    (raw : PVal) (D : List (String × PVal)) (s : String)
    (hfile : fsGet fs p = some raw)
    (hparse : checkDupGo (fuel + 2) raw = .ok (.obj D))
    (hinc : assocGet D "#include" = some (.str s))
    (hne : s ≠ "")
    (hmissing : fsGet fs (resolveInclude (parentPath p) s) = none) :
    load_json_with_includes fs (fuel + 2) p
      = .error (.fileNotFound (resolveInclude (parentPath p) s)) := by
  have hinner : load_json_with_includes fs (fuel + 1) (resolveInclude (parentPath p) s)
      = .error (.fileNotFound (resolveInclude (parentPath p) s)) := by
    unfold load_json_with_includes
    simp [load_json_with_comments, hmissing]
  unfold load_json_with_includes
  simp only [load_json_with_comments, hfile, hparse, hinc, hinner, pyTruthy]
  simp [hne]

/-- C6 witness: `{"#include": "bad-path.json"}` fails with a file-not-found
error for the resolved path. -/
theorem claim6_witness :
    load_json_with_includes
        [(["cfg", "config.json"], .obj [("#include", .str "bad-path.json")])] 4
        ["cfg", "config.json"]
      = .error (.fileNotFound ["cfg", "bad-path.json"]) := by
  have h := claim6_missing_include_error
    [(["cfg", "config.json"], .obj [("#include", .str "bad-path.json")])] 2
    ["cfg", "config.json"] (.obj [("#include", .str "bad-path.json")])
    [("#include", .str "bad-path.json")] "bad-path.json"
    rfl rfl rfl (by decide) rfl
  exact h.trans (by rfl)

/-! ### Claim C9 -/

/-- C9 counterexample: for a *boolean* option, coercing the non-boolean
string `"xyz"` does not raise any invalid-value error — `_convertType`
applies `bool(result)`, Python truthiness, and the option silently resolves
to `True`.  The claim's "for every option of numeric or boolean value type
... raises an invalid-value error" is therefore false for boolean
options. -/
theorem claim9_counterexample :
    loadOption boolJsonSt [] (mkBoolOption "assume-completed")
      = .ok (some (.bool true)) := rfl

/-- **C9 (amended)**: for an option of *numeric* (int) value type, coercing
a non-numeric string raises `ValueError` inside `_convertType`, and
`loadOption` converts it into the fatal user-facing configuration error
naming the option and the offending value, handing it to `fatalError`
(modelled from the spec as exiting non-zero) instead of propagating the
exception.  Boolean value types never reach this path: `bool()` applies
truthiness and cannot raise (see the counterexample). -/
theorem claim9_int_coercion_fatal (st : LoaderState)
    (opts : List (String × ConfigOption)) (o : ConfigOption) (s : String)
    (hvt : o.valueType = .int)
    (hres : jsonAndCmdLoadOptionImpl st o = .ok (some (.str s)))
    (hbad : parseIntChars s.data = none) :
    loadOption st opts o
      = .error (.fatalExit ("Invalid value for option '" ++ o.name
          ++ "': could not convert '" ++ s ++ "': "
          ++ ("invalid literal for int() with base 10: '" ++ s ++ "'"))) := by
  simp [loadOption, hres, applyConvert, convertType, hvt, seqSplitStep, pyIntOf,
    hbad, pyStr]

/-- C9 witness: `"cheri-bits": "abc"` produces the fatal message naming the
option and the value. -/
theorem claim9_witness :
    loadOption intJsonSt [] cheriBitsOpt
      = .error (.fatalExit
          "Invalid value for option 'cheri-bits': could not convert 'abc': invalid literal for int() with base 10: 'abc'") := by
  have h := claim9_int_coercion_fatal intJsonSt [] cheriBitsOpt "abc" rfl rfl rfl
  exact h.trans (by rfl)

/-! ### Claim C8: path-normalization lemmas -/

theorem mem_splitChars_no_sep (sep : Char) (cs : List Char) :
    ∀ p ∈ splitChars sep cs, sep ∉ p := by
  induction cs with
  | nil =>
    intro p hp
    simp [splitChars] at hp
    simp [hp]
  | cons c rest ih =>
    intro p hp
    unfold splitChars at hp
    by_cases hc : c = sep
    · rw [if_pos hc] at hp
      rcases List.mem_cons.mp hp with h | h
      · simp [h]
      · exact ih p h
    · rw [if_neg hc] at hp
      cases hsplit : splitChars sep rest with
      | nil => exact absurd hsplit (splitChars_ne_nil sep rest)
      | cons p0 ps =>
        rw [hsplit] at hp
        rcases List.mem_cons.mp hp with h | h
        · subst h
          intro hmem
          rcases List.mem_cons.mp hmem with h | h
          · exact hc h.symm
          · exact ih p0 (hsplit ▸ List.mem_cons_self p0 ps) h
        · exact ih p (hsplit ▸ List.mem_cons_of_mem p0 h)

theorem splitChars_of_no_sep (sep : Char) (p : List Char) (h : sep ∉ p) :
    splitChars sep p = [p] := by
  induction p with
  | nil => rfl
  | cons c rest ih =>
    have hc : c ≠ sep := fun hcc => h (hcc ▸ List.mem_cons_self c rest)
    have hrest : sep ∉ rest := fun hm => h (List.mem_cons_of_mem c hm)
    unfold splitChars
    rw [if_neg (fun hcc => hc hcc), ih hrest]

theorem splitChars_cons_ne (sep c : Char) (xs : List Char) (hc : c ≠ sep) :
    splitChars sep (c :: xs)
      = match splitChars sep xs with
        | p :: ps => (c :: p) :: ps
        | [] => [[c]] := by
  conv_lhs => rw [splitChars]
  rw [if_neg hc]

theorem splitChars_append_sep (p cs : List Char) (h : '/' ∉ p) :
    splitChars '/' (p ++ '/' :: cs) = p :: splitChars '/' cs := by
  induction p with
  | nil => simp [splitChars]
  | cons c rest ih =>
    have hc : c ≠ '/' := fun hcc => h (hcc ▸ List.mem_cons_self c rest)
    have hrest : '/' ∉ rest := fun hm => h (List.mem_cons_of_mem c hm)
    rw [List.cons_append, splitChars_cons_ne '/' c _ hc, ih hrest]

theorem splitChars_joinParts (ps : List (List Char)) (hne : ps ≠ [])
    (h : ∀ p ∈ ps, '/' ∉ p) :
    splitChars '/' (joinParts ps) = ps := by
  induction ps with
  | nil => exact absurd rfl hne
  | cons p rest ih =>
    cases rest with
    | nil =>
      show splitChars '/' (joinParts [p]) = [p]
      exact splitChars_of_no_sep '/' p (h p (List.mem_cons_self p []))
    | cons q qs =>
      rw [joinParts_cons p (q :: qs) (by simp)]
      rw [splitChars_append_sep p (joinParts (q :: qs)) (h p (List.mem_cons_self p _))]
      rw [ih (by simp) (fun r hr => h r (List.mem_cons_of_mem p hr))]

theorem cleanParts_clean (cs : List Char) : PartsClean (cleanParts cs) := by
  intro p hp
  unfold cleanParts at hp
  rw [List.mem_filter] at hp
  obtain ⟨hmem, hpred⟩ := hp
  have hslash := mem_splitChars_no_sep '/' cs p hmem
  refine ⟨?_, ?_, hslash⟩
  · intro hnil
    subst hnil
    simp at hpred
  · intro hdot
    subst hdot
    simp at hpred

theorem cleanParts_abs_joinParts (ps : List (List Char)) (h : PartsClean ps) :
    cleanParts ('/' :: joinParts ps) = ps := by
  unfold cleanParts
  have hsplit : splitChars '/' ('/' :: joinParts ps)
      = [] :: splitChars '/' (joinParts ps) := rfl
  rw [hsplit]
  simp only [List.filter, List.isEmpty_nil, Bool.not_true, Bool.false_and]
  cases hps : ps with
  | nil =>
    show List.filter _ (splitChars '/' (joinParts [])) = []
    simp [joinParts, splitChars, List.filter]
  | cons q qs =>
    rw [← hps]
    rw [splitChars_joinParts ps (by rw [hps]; simp) (fun p hp => (h p hp).2.2)]
    rw [List.filter_eq_self.mpr]
    intro p hp
    obtain ⟨h1, h2, _⟩ := h p hp
    simp [h1, h2]

theorem normChars_stable (ps : List (List Char)) (h : PartsClean ps) :
    normChars ('/' :: joinParts ps) = '/' :: joinParts ps := by
  show '/' :: joinParts (cleanParts ('/' :: joinParts ps)) = '/' :: joinParts ps
  rw [cleanParts_abs_joinParts ps h]

theorem cwdClean_parts (st : LoaderState) (h : cwdCleanB st = true) :
    PartsClean (st.cwd.map String.data) := by
  intro p hp
  rw [List.mem_map] at hp
  obtain ⟨w, hw, hwp⟩ := hp
  unfold cwdCleanB at h
  rw [List.all_eq_true] at h
  have hw2 := h w hw
  simp only [Bool.and_eq_true, Bool.not_eq_true', decide_eq_true_eq] at hw2
  subst hwp
  refine ⟨?_, hw2.1.2, ?_⟩
  · simpa using hw2.1.1
  · have hc := hw2.2
    simpa using hc

/-- Every coerced path is absolute with clean components: the result of
`coercePath` always renders as `'/'` followed by slash-joined clean
parts. -/
theorem coercePath_shape (st : LoaderState) (s : String) (hcwd : cwdCleanB st = true) :
    ∃ ps, PartsClean ps ∧ (coercePath st s).data = '/' :: joinParts ps := by
  unfold coercePath
  split
  next heq =>
    refine ⟨cleanParts (pathExpand st s).data, cleanParts_clean _, ?_⟩
    show normChars (pathExpand st s).data = _
    rw [heq]
    rfl
  next =>
    refine ⟨st.cwd.map String.data ++ cleanParts (pathExpand st s).data, ?_, rfl⟩
    intro p hp
    rcases List.mem_append.mp hp with h | h
    · exact cwdClean_parts st hcwd p h
    · exact cleanParts_clean _ p h

/-- Re-coercing a coerced path is a no-op whenever re-expanding its
rendered string changes nothing. -/
theorem coercePath_fix (st : LoaderState) (s : String) (hcwd : cwdCleanB st = true)
    (hstable : pathExpand st (coercePath st s) = coercePath st s) :
    coercePath st (coercePath st s) = coercePath st s := by
  obtain ⟨ps, hclean, hdata⟩ := coercePath_shape st s hcwd
  have h1 : (pathExpand st (coercePath st s)).data = '/' :: joinParts ps := by
    rw [hstable, hdata]
  have h2 : coercePath st (coercePath st s)
      = String.mk (normChars (pathExpand st (coercePath st s)).data) := by
    generalize coercePath st s = t at h1 ⊢
    unfold coercePath
    split
    · rfl
    next hne => exact absurd h1 (hne (joinParts ps))
  rw [h2, h1, normChars_stable ps hclean, ← hdata]

/-- The successful outputs of `pyIntOf` are ints. -/
theorem pyIntOf_ok_int (x w : PVal) (h : pyIntOf x = .ok w) : ∃ n, w = PVal.int n := by
  cases x with
  | int n => exact ⟨n, (Except.ok.inj h).symm⟩
  | bool b => exact ⟨_, (Except.ok.inj h).symm⟩
  | str s =>
    simp only [pyIntOf] at h
    cases hp : parseIntChars s.data with
    | some n =>
      rw [hp] at h
      exact ⟨n, (Except.ok.inj h).symm⟩
    | none => rw [hp] at h; exact Except.noConfusion h
  | obj es => exact Except.noConfusion h
  | list xs => exact Except.noConfusion h
  | path p => exact Except.noConfusion h
  | enum m => exact Except.noConfusion h

/-- The successful outputs of `pyListOf` are lists. -/
theorem pyListOf_ok_list (x w : PVal) (h : pyListOf x = .ok w) :
    ∃ ys, w = PVal.list ys := by
  cases x with
  | list xs => exact ⟨xs, (Except.ok.inj h).symm⟩
  | str s => exact ⟨_, (Except.ok.inj h).symm⟩
  | obj es => exact ⟨_, (Except.ok.inj h).symm⟩
  | int n => exact Except.noConfusion h
  | bool b => exact Except.noConfusion h
  | path p => exact Except.noConfusion h
  | enum m => exact Except.noConfusion h

/-- The successful outputs of `enumScalar` are enum members. -/
theorem enumScalar_ok_enum (ms : List String) (x w : PVal)
    (h : enumScalar ms x = .ok w) : ∃ m, w = PVal.enum m := by
  cases x with
  | str s =>
    simp only [enumScalar] at h
    by_cases hm : ms.contains (enumNormalize s)
    · rw [if_pos hm] at h
      exact ⟨_, (Except.ok.inj h).symm⟩
    · rw [if_neg hm] at h
      exact Except.noConfusion h
  | enum m => exact ⟨m, (Except.ok.inj h).symm⟩
  | bool b => exact Except.noConfusion h
  | int n => exact Except.noConfusion h
  | obj es => exact Except.noConfusion h
  | list xs => exact Except.noConfusion h
  | path p => exact Except.noConfusion h

/-- Converting an already-converted enum scalar is a no-op. -/
theorem enumScalar_ok_fix (ms : List String) (x w : PVal)
    (h : enumScalar ms x = .ok w) : enumScalar ms w = .ok w := by
  cases x with
  | str s =>
    simp only [enumScalar] at h
    by_cases hm : ms.contains (enumNormalize s)
    · rw [if_pos hm] at h
      rw [← Except.ok.inj h]
      rfl
    · rw [if_neg hm] at h
      exact Except.noConfusion h
  | enum m =>
    rw [← Except.ok.inj h]
    rfl
  | bool b => exact Except.noConfusion h
  | int n => exact Except.noConfusion h
  | obj es => exact Except.noConfusion h
  | list xs => exact Except.noConfusion h
  | path p => exact Except.noConfusion h

/-- Mapping `enumScalar` over its own successful outputs is a no-op. -/
theorem exceptMapList_enumScalar_fix (ms : List String) :
    ∀ (xs ys : List PVal), exceptMapList (enumScalar ms) xs = .ok ys →
      exceptMapList (enumScalar ms) ys = .ok ys := by
  intro xs
  induction xs with
  | nil =>
    intro ys h
    rw [← Except.ok.inj h]
    rfl
  | cons x rest ih =>
    intro ys h
    unfold exceptMapList at h
    cases hx : enumScalar ms x with
    | error e => rw [hx] at h; exact Except.noConfusion h
    | ok y =>
      rw [hx] at h
      cases hr : exceptMapList (enumScalar ms) rest with
      | error e => rw [hr] at h; exact Except.noConfusion h
      | ok ys' =>
        rw [hr] at h
        rw [← Except.ok.inj h]
        unfold exceptMapList
        rw [enumScalar_ok_fix ms x y hx, ih ys' hr]

theorem enumCall_list_eq (ms : List String) (xs : List PVal) :
    enumCall ms (.list xs)
      = match exceptMapList (enumScalar ms) xs with
        | .error e => .error e
        | .ok ys => .ok (.list ys) := rfl

/-- Re-applying `_EnumArgparseType.__call__` to its own successful output
is a no-op. -/
theorem enumCall_ok_fix (ms : List String) (x w : PVal)
    (h : enumCall ms x = .ok w) : enumCall ms w = .ok w := by
  cases x with
  | list xs =>
    rw [enumCall_list_eq] at h
    cases hm : exceptMapList (enumScalar ms) xs with
    | error e => rw [hm] at h; exact Except.noConfusion h
    | ok ys =>
      rw [hm] at h
      rw [← Except.ok.inj h]
      rw [enumCall_list_eq, exceptMapList_enumScalar_fix ms xs ys hm]
  | str s =>
    obtain ⟨m, hm⟩ := enumScalar_ok_enum ms (.str s) w h
    subst hm
    exact enumScalar_ok_fix ms (.str s) (.enum m) h
  | enum m0 =>
    obtain ⟨m, hm⟩ := enumScalar_ok_enum ms (.enum m0) w h
    subst hm
    exact enumScalar_ok_fix ms (.enum m0) (.enum m) h
  | bool b => exact Except.noConfusion h
  | int n => exact Except.noConfusion h
  | obj es => exact Except.noConfusion h
  | path p => exact Except.noConfusion h

/-- C8 counterexample: `Path` coercion is not idempotent.  With
`FOO='$BAR'` and `BAR='z'` in the environment, coercing the raw string
`"$FOO/x"` succeeds and yields the path `/c/$BAR/x` — `os.path.expandvars`
substitutes in a single pass and does not rescan the inserted text — but
coercing that already-coerced value again expands the remaining `$BAR` and
yields the different path `/c/z/x`. -/
theorem claim8_counterexample :
    convertType chainedEnvSt .path (some (.str "$FOO/x"))
      = .ok (some (.path "/c/$BAR/x")) ∧
    convertType chainedEnvSt .path (some (.path "/c/$BAR/x"))
      = .ok (some (.path "/c/z/x")) ∧
    ("/c/$BAR/x" : String) ≠ "/c/z/x" :=
  ⟨rfl, rfl, by decide⟩

/-- **C8 (amended)**: value coercion is idempotent for the bool, int,
string, enum and list value types unconditionally; for the path value type
it is idempotent provided re-expanding the coerced path's rendered string
is a no-op (no environment variable of the string expands any further and
no leading `~` remains — the counterexample shows this proviso is
necessary), with the working directory a normalized absolute path as
`os.getcwd` guarantees. -/
theorem claim8_coercion_idempotent (st : LoaderState) (vt : ValueType) (v w : PVal)
    (hcwd : cwdCleanB st = true)
    (hc : convertType st vt (some v) = .ok (some w))
    (hstable : vt = ValueType.path → pathExpand st (pyStr w) = pyStr w) :
    convertType st vt (some w) = .ok (some w) := by
  cases vt with
  | str =>
    have hs : convertType st .str (some v) = .ok (some (.str (pyStr v))) := rfl
    rw [hs] at hc
    rw [← Option.some.inj (Except.ok.inj hc)]
    rfl
  | bool =>
    have hb : convertType st .bool (some v) = .ok (some (.bool (pyTruthy v))) := rfl
    rw [hb] at hc
    rw [← Option.some.inj (Except.ok.inj hc)]
    rfl
  | int =>
    have hi : convertType st .int (some v)
        = match pyIntOf v with
          | .ok u => .ok (some u)
          | .error e => .error e := rfl
    rw [hi] at hc
    cases hx : pyIntOf v with
    | error e => rw [hx] at hc; exact Except.noConfusion hc
    | ok u =>
      rw [hx] at hc
      rw [← Option.some.inj (Except.ok.inj hc)]
      obtain ⟨n, hn⟩ := pyIntOf_ok_int v u hx
      subst hn
      rfl
  | list =>
    have hl : convertType st .list (some v)
        = match pyListOf (seqSplitStep .list v) with
          | .ok u => .ok (some u)
          | .error e => .error e := rfl
    rw [hl] at hc
    cases hx : pyListOf (seqSplitStep .list v) with
    | error e => rw [hx] at hc; exact Except.noConfusion hc
    | ok u =>
      rw [hx] at hc
      rw [← Option.some.inj (Except.ok.inj hc)]
      obtain ⟨ys, hy⟩ := pyListOf_ok_list (seqSplitStep .list v) u hx
      subst hy
      rfl
  | path =>
    have hp : convertType st .path (some v)
        = .ok (some (.path (coercePath st (pyStr v)))) := rfl
    rw [hp] at hc
    rw [← Option.some.inj (Except.ok.inj hc)]
    have hst : pathExpand st (coercePath st (pyStr v)) = coercePath st (pyStr v) := by
      have := hstable rfl
      rw [← Option.some.inj (Except.ok.inj hc)] at this
      exact this
    calc convertType st .path (some (.path (coercePath st (pyStr v))))
        = .ok (some (.path (coercePath st (coercePath st (pyStr v))))) := rfl
      _ = .ok (some (.path (coercePath st (pyStr v)))) := by
          rw [coercePath_fix st (pyStr v) hcwd hst]
  | enum ms =>
    have he : convertType st (.enum ms) (some v)
        = match enumCall ms v with
          | .ok u => .ok (some u)
          | .error e => .error e := rfl
    rw [he] at hc
    cases hx : enumCall ms v with
    | error e => rw [hx] at hc; exact Except.noConfusion hc
    | ok u =>
      rw [hx] at hc
      rw [← Option.some.inj (Except.ok.inj hc)]
      have hgoal : convertType st (.enum ms) (some u)
          = match enumCall ms u with
            | .ok u2 => .ok (some u2)
            | .error e => .error e := by
        obtain ⟨m, hm⟩ | ⟨ys, hy⟩ :
            (∃ m, u = PVal.enum m) ∨ (∃ ys, u = PVal.list ys) := by
          cases v with
          | list xs =>
            rw [enumCall_list_eq] at hx
            cases hm2 : exceptMapList (enumScalar ms) xs with
            | error e => rw [hm2] at hx; exact Except.noConfusion hx
            | ok ys =>
              rw [hm2] at hx
              exact Or.inr ⟨ys, (Except.ok.inj hx).symm⟩
          | str s => exact Or.inl (enumScalar_ok_enum ms (.str s) u hx)
          | enum m0 => exact Or.inl (enumScalar_ok_enum ms (.enum m0) u hx)
          | bool b => exact Except.noConfusion hx
          | int n => exact Except.noConfusion hx
          | obj es => exact Except.noConfusion hx
          | path p => exact Except.noConfusion hx
        · subst hm; rfl
        · subst hy; rfl
      rw [hgoal, enumCall_ok_fix ms v u hx]

/-- C8 witness: the already-coerced path `/c/a/b` (the coercion of the raw
string `"a/b"` under working directory `/c`) re-coerces to itself. -/
theorem claim8_witness :
    convertType chainedEnvSt .path (some (.path "/c/a/b"))
      = .ok (some (.path "/c/a/b")) :=
  claim8_coercion_idempotent chainedEnvSt .path (.str "a/b") (.path "/c/a/b")
    rfl rfl (fun _ => rfl)

end CheriLoader
